import Mathlib

/-!
# Verification of the Tg-Channel-Trading-Agent signal pipeline

Shallow embedding of the repository's core:
* `src/trading/signal_parser.py` — classifier-answer grammar (`parse`,
  `_parse_entry`, `_parse_exit`, `_parse_number`),
* `src/trading/strategy.py` — trading execution engine
  (`_process_entry`, `_process_exit`, `_calculate_qty`, `_round_quantity`),
* `src/telegram/parser.py` — polling/dedup loop (`_polling_loop`),
* `src/telegram/handler_wrapper.py` — `HandlerStats`.

Python `float` values are modelled by `PyFloat` (an exact rational plus the
special values `inf`, `-inf`, `nan`); decimal-literal conversion is exact
rational arithmetic, so double rounding/overflow of literals with more than
about 17 significant digits is not modelled.  Machine-level binary rounding
inside `round()` is likewise modelled by exact half-to-even on rationals.
Character classes `\w`/`\s` of Python's `re` are modelled on their ASCII
fragment.  Exchange and Telegram transports are oracles: pure functions
giving each call's outcome, with the calls the engine makes recorded in a
trace.
-/

set_option maxRecDepth 2000

/-- Python float value: exact finite rational, or one of the special values.
Constructor `finite` carries the exact mathematical value of the literal. -/
inductive PyFloat where
  | finite (q : ℚ)
  | inf
  | ninf
  | nan
deriving DecidableEq, Repr

/-- Numeric value of a list of decimal digit characters (most significant
first), e.g. `['1','5'] ↦ 15`. -/
def digitsToNat (ds : List Char) : ℕ :=
  ds.foldl (fun a c => 10 * a + (c.toNat - '0'.toNat)) 0

/-- Python `str.strip()` (ASCII/common-whitespace fragment): drop leading and
trailing whitespace characters. -/
def pyStrip (s : String) : String :=
  String.mk (((s.toList.dropWhile Char.isWhitespace).reverse.dropWhile
    Char.isWhitespace).reverse)

/-- `value_str.rstrip('x')` from `_parse_number`: drop every trailing `'x'`. -/
def rstripX (s : String) : String :=
  String.mk ((s.toList.reverse.dropWhile (· == 'x')).reverse)

/-- Exponent part of a Python float literal: empty, or `e`/`E` followed by an
optional sign and at least one digit consuming the whole remainder. -/
def parseExp : List Char → Option ℤ
  | [] => some 0
  | 'e' :: r =>
    let (eneg, r1) : Bool × List Char :=
      match r with
      | '+' :: t => (false, t)
      | '-' :: t => (true, t)
      | _ => (false, r)
    let (ds, r2) := r1.span Char.isDigit
    if ds.isEmpty ∨ ¬ r2.isEmpty then none
    else some (if eneg then -(digitsToNat ds : ℤ) else (digitsToNat ds : ℤ))
  | 'E' :: r =>
    let (eneg, r1) : Bool × List Char :=
      match r with
      | '+' :: t => (false, t)
      | '-' :: t => (true, t)
      | _ => (false, r)
    let (ds, r2) := r1.span Char.isDigit
    if ds.isEmpty ∨ ¬ r2.isEmpty then none
    else some (if eneg then -(digitsToNat ds : ℤ) else (digitsToNat ds : ℤ))
  | _ => none

/-- Mantissa-with-exponent part of CPython `float(str)` after the sign:
`[digits] ['.' [digits]] [exp]` with at least one mantissa digit.  Returns
the exact rational value (underscored literals are not modelled). -/
def parseDecimal (neg : Bool) (cs : List Char) : Option ℚ :=
  let (ip, r1) := cs.span Char.isDigit
  let (hasDot, r2) : Bool × List Char :=
    match r1 with
    | '.' :: rest => (true, rest)
    | _ => (false, r1)
  let (fp, r3) := if hasDot then r2.span Char.isDigit else ([], r2)
  if ip.isEmpty ∧ fp.isEmpty then none
  else
    match parseExp r3 with
    | none => none
    | some e =>
      let mant : ℚ := (digitsToNat ip : ℚ) + (digitsToNat fp : ℚ) / 10 ^ fp.length
      some ((if neg then -mant else mant) * 10 ^ e)

/-- CPython's `float(str)` conversion: surrounding whitespace ignored,
optional sign, then `inf`/`infinity`/`nan` (case-insensitive) or a decimal
literal with optional exponent.  `none` models `ValueError`. -/
def pyFloatOfString (s : String) : Option PyFloat :=
  let cs := (pyStrip s).toList
  let (neg, cs1) : Bool × List Char :=
    match cs with
    | '+' :: r => (false, r)
    | '-' :: r => (true, r)
    | _ => (false, cs)
  let lower := String.mk (cs1.map Char.toLower)
  if lower = "inf" ∨ lower = "infinity" then
    some (if neg then PyFloat.ninf else PyFloat.inf)
  else if lower = "nan" then some PyFloat.nan
  else (parseDecimal neg cs1).map PyFloat.finite

/-- `re` character class `\w` (ASCII fragment). -/
def isWordChar (c : Char) : Bool := c.isAlphanum || c == '_'

/-- `re` character class `\s` (common-whitespace fragment). -/
def isSpaceChar (c : Char) : Bool := c.isWhitespace

/-- Greedy `X+` for a character class: the maximal nonempty prefix of
characters satisfying `p` and the remainder; `none` when the first character
fails `p`. -/
def plusRun (p : Char → Bool) (cs : List Char) : Option (List Char × List Char) :=
  let (tok, rest) := cs.span p
  if tok.isEmpty then none else some (tok, rest)

/-- A literal regex atom: consume `lit` exactly at the front. -/
def dropLit (lit : List Char) (cs : List Char) : Option (List Char) :=
  if lit.isPrefixOf cs then some (cs.drop lit.length) else none

/-- The alternation `(Long|Short)`: `Long` is tried first, as in the source
regex; the captured group is the matched literal. -/
def matchDirection (cs : List Char) : Option (String × List Char) :=
  match dropLit "Long".toList cs with
  | some r => some ("Long", r)
  | none =>
    match dropLit "Short".toList cs with
    | some r => some ("Short", r)
    | none => none

/-- `re.match` of `r'(\w+)\s+(Long|Short)\s+Leverage:(\S+)\s+TP:(\S+)\s+SL:(\S+)'`
from `_parse_entry`, returning the five captured groups.  Each greedy
quantifier here is followed by an atom disjoint from its character class
(`\w+`/`\S+` by `\s+`, `\s+` by a non-space literal), so the backtracking
match is equivalent to this deterministic maximal-munch scan; trailing
input after the last group is ignored, as with `re.match`. -/
def matchEntry (s : String) : Option (String × String × String × String × String) :=
  match plusRun isWordChar s.toList with
  | none => none
  | some (asset, r1) =>
    match plusRun isSpaceChar r1 with
    | none => none
    | some (_, r2) =>
      match matchDirection r2 with
      | none => none
      | some (dir, r3) =>
        match plusRun isSpaceChar r3 with
        | none => none
        | some (_, r4) =>
          match dropLit "Leverage:".toList r4 with
          | none => none
          | some r5 =>
            match plusRun (fun c => !isSpaceChar c) r5 with
            | none => none
            | some (lev, r6) =>
              match plusRun isSpaceChar r6 with
              | none => none
              | some (_, r7) =>
                match dropLit "TP:".toList r7 with
                | none => none
                | some r8 =>
                  match plusRun (fun c => !isSpaceChar c) r8 with
                  | none => none
                  | some (tp, r9) =>
                    match plusRun isSpaceChar r9 with
                    | none => none
                    | some (_, r10) =>
                      match dropLit "SL:".toList r10 with
                      | none => none
                      | some r11 =>
                        match plusRun (fun c => !isSpaceChar c) r11 with
                        | none => none
                        | some (sl, _) =>
                          some (String.mk asset, dir, String.mk lev,
                            String.mk tp, String.mk sl)

/-- The tail `(.+?)$` of the exit regex: the lazy group takes the shortest
nonempty newline-free run after which `$` matches, i.e. the whole remainder
when it is newline-free, or the remainder minus a single trailing newline;
anything else fails (`.` cannot cross `'\n'` and `$` only matches at the end
or before one final newline). -/
def lazyDotPlusEnd (cs : List Char) : Option (List Char) :=
  match cs.getLast? with
  | none => none
  | some last =>
    if last = '\n' then
      let pre := cs.dropLast
      if pre.isEmpty ∨ pre.contains '\n' then none else some pre
    else if cs.contains '\n' then none
    else some cs

/-- `re.match` of `r'(\w+)\s+close\s+(.+?)$'` from `_parse_exit`, returning
the two captured groups.  As in `matchEntry` the greedy prefixes are
deterministic; the final `\s+` never needs to give characters back to the
lazy group on the stripped strings `parse` feeds in, since those never end
in whitespace. -/
def matchExit (s : String) : Option (String × String) :=
  match plusRun isWordChar s.toList with
  | none => none
  | some (asset, r1) =>
    match plusRun isSpaceChar r1 with
    | none => none
    | some (_, r2) =>
      match dropLit "close".toList r2 with
      | none => none
      | some r3 =>
        match plusRun isSpaceChar r3 with
        | none => none
        | some (_, r4) =>
          match lazyDotPlusEnd r4 with
          | none => none
          | some grp => some (String.mk asset, String.mk grp)

/-- `re.match` of `r'(\d+(?:\.\d+)?)%'` inside `_parse_exit`, returning the
exact rational value of the captured decimal group (the subsequent
`float(...)` of a plain digit group never fails); trailing input after the
`%` is ignored, as with `re.match`. -/
def pctMatch (s : String) : Option ℚ :=
  match plusRun Char.isDigit s.toList with
  | none => none
  | some (ds, r1) =>
    let (fs, r2) : List Char × List Char :=
      match r1 with
      | '.' :: rest =>
        match plusRun Char.isDigit rest with
        | some (fs, r) => (fs, r)
        | none => ([], '.' :: rest)
      | _ => ([], r1)
    match dropLit ['%'] r2 with
    | none => none
    | some _ =>
      some ((digitsToNat ds : ℚ) + (digitsToNat fs : ℚ) / 10 ^ fs.length)

/-- Dataclass `EntrySignal` of `signal_parser.py`. -/
structure EntrySignal where
  asset : String
  direction : String
  leverage : PyFloat
  tp : PyFloat
  sl : PyFloat
deriving DecidableEq, Repr

/-- Dataclass `ExitSignal` of `signal_parser.py`; the percentage, when
present, always comes from a plain decimal group and is kept exact. -/
structure ExitSignal where
  asset : String
  exit_type : String
  percentage : Option ℚ := none
deriving DecidableEq, Repr

/-- The parser's result type: Python's `Union[EntrySignal, ExitSignal]`
inside an `Option` (with `none` for `None`, i.e. NOISE / unparseable). -/
inductive Signal where
  | entry (e : EntrySignal)
  | exit (x : ExitSignal)
deriving DecidableEq, Repr

/-- `_parse_number`: strip trailing `'x'` characters, then `float(...)`;
`none` models the caught `ValueError`. -/
def parse_number (value_str : String) : Option PyFloat :=
  pyFloatOfString (rstripX value_str)

/-- `_parse_entry`: match the entry regex, then convert the three numeric
groups with `_parse_number`; any `None` among them invalidates the match.
The `except` branch of the source is dead (no statement in the `try` block
raises), so it is not modelled. -/
def parse_entry (response : String) : Option EntrySignal :=
  match matchEntry response with
  | none => none
  | some (asset, direction, leverage_str, tp_str, sl_str) =>
    match parse_number leverage_str, parse_number tp_str, parse_number sl_str with
    | some leverage, some tp, some sl =>
      some { asset := asset, direction := direction, leverage := leverage,
             tp := tp, sl := sl }
    | _, _, _ => none

/-- `_parse_exit`: match the exit regex; `all` yields a full exit, a
percentage group is accepted exactly when its value lies in `(0, 100]`. -/
def parse_exit (response : String) : Option ExitSignal :=
  match matchExit response with
  | none => none
  | some (asset, exit_value_raw) =>
    let exit_value := pyStrip exit_value_raw
    if exit_value = "all" then
      some { asset := asset, exit_type := "all" }
    else
      match pctMatch exit_value with
      | some percentage =>
        if 0 < percentage ∧ percentage ≤ 100 then
          some { asset := asset, exit_type := "percentage",
                 percentage := some percentage }
        else none
      | none => none

/-- `parse` of `signal_parser.py`: strip the classifier answer, return `none`
for the literal `NOISE`, try the entry grammar, then the exit grammar, and
fall back to `none` (unparseable). -/
def parse (ai_response : String) : Option Signal :=
  let response := pyStrip ai_response
  if response = "NOISE" then none
  else
    match parse_entry response with
    | some e => some (Signal.entry e)
    | none =>
      match parse_exit response with
      | some x => some (Signal.exit x)
      | none => none

/-! ## Trading execution engine (`src/trading/strategy.py`)

The strategy holds `min_order_qty_cache : dict[str, float]`, filled by
`BybitExchange.get_all_min_order_qty` with `float(minOrderQty)` of each
instrument.  A Python float in the cache is represented here by the string
`str()` produces for it, which is the only observation `_round_quantity`
makes of it.  Exchange interaction is split into an oracle (the outcome of
each call) and the trace of calls the engine performs. -/

/-- `str(float(s))` for an instrument's API-supplied `minOrderQty` string:
Python prints an integral float with a trailing `.0` and otherwise prints
the shortest round-tripping decimal.  The model is exact for strings that
are already in shortest round-trip form — either a decimal containing `'.'`
equal to the float's repr (e.g. `"0.001"`) or an integer literal small
enough that its repr is the literal followed by `.0` (e.g. `"1"`). -/
def pyFloatRepr (s : String) : String :=
  if s.toList.contains '.' then s else s ++ ".0"

/-- The decimal-place count inside `_round_quantity`: digits after the first
`'.'` of the string (the `len(min_qty_str.split('.')[1])` of the source,
i.e. the second `split` field), or `0` when there is no decimal point. -/
def decimal_places (min_qty_str : String) : ℕ :=
  let cs := min_qty_str.toList
  if cs.contains '.' then
    (((cs.dropWhile (fun c => !(c == '.'))).drop 1).takeWhile
      (fun c => !(c == '.'))).length
  else 0

/-- Round-half-to-even to an integer, the tie rule of Python's `round`
(modelled exactly on rationals; binary representation error of the float
argument is not modelled). -/
def roundHalfEven (q : ℚ) : ℤ :=
  let n := ⌊q⌋
  let frac := q - n
  if frac < 1/2 then n
  else if 1/2 < frac then n + 1
  else if n % 2 = 0 then n else n + 1

/-- Python `round(q, ndigits)` for a finite value and `ndigits ≥ 0`. -/
def pyRound (q : ℚ) (ndigits : ℕ) : ℚ :=
  (roundHalfEven (q * 10 ^ ndigits) : ℚ) / 10 ^ ndigits

/-- `TradingStrategy._round_quantity`: derive the decimal-place count from
`str(min_order_qty)` (the cached float, given here by its repr string) and
round the quantity to that many digits.  `round` raises `OverflowError` /
`ValueError` on infinities and NaN, modelled by `none`. -/
def round_quantity (qty : PyFloat) (min_order_qty : String) : Option ℚ :=
  let min_qty_str := min_order_qty
  match qty with
  | PyFloat.finite q => some (pyRound q (decimal_places min_qty_str))
  | _ => none

/-- Process-wide configuration (external collaborator): account balance and
per-trade risk percentage, validated positive at startup. -/
structure TradeConfig where
  BALANCE : ℚ
  AMOUNT : ℚ

/-- Python float multiplication `q * x` with `q` finite. -/
def PyFloat.mulFin (q : ℚ) (x : PyFloat) : PyFloat :=
  match x with
  | finite r => finite (q * r)
  | inf => if 0 < q then inf else if q < 0 then ninf else nan
  | ninf => if 0 < q then ninf else if q < 0 then inf else nan
  | nan => nan

/-- Python float division `x / q` with `q` finite; `none` models
`ZeroDivisionError` when `q = 0`. -/
def PyFloat.divFin (x : PyFloat) (q : ℚ) : Option PyFloat :=
  if q = 0 then none
  else some (match x with
    | finite r => finite (r / q)
    | inf => if 0 < q then inf else ninf
    | ninf => if 0 < q then ninf else inf
    | nan => nan)

/-- `TradingStrategy._calculate_qty`: `margin = BALANCE * AMOUNT / 100`,
`position_volume = margin * leverage`, `qty = position_volume / price`;
any exception (division by a zero price) is caught and yields `None`. -/
def calculate_qty (cfg : TradeConfig) (price : ℚ) (leverage : PyFloat) :
    Option PyFloat :=
  let margin := cfg.BALANCE * cfg.AMOUNT / 100
  let position_volume := PyFloat.mulFin margin leverage
  PyFloat.divFin position_volume price

/-- One exchange-reported position row (after the gateway's `size > 0`
filter input): side and size. -/
structure Position where
  side : String
  size : ℚ
deriving DecidableEq, Repr

/-- The last/mark/index price triple of `get_symbol_prices`. -/
structure Prices where
  last : ℚ
  mark : ℚ
  index : ℚ
deriving DecidableEq, Repr

/-- Outcome of `BybitExchange.set_leverage`: success, the specific
`ErrCode: 110043` ("leverage not modified") which the gateway converts to
success, or any other exchange error, which it re-raises. -/
inductive LevResult where
  | ok
  | alreadySet
  | err
deriving DecidableEq, Repr

/-- One exchange call made by the strategy, as recorded in the trace. -/
inductive ExchCall where
  | setLeverage (symbol : String) (leverage : PyFloat)
  | getPrices (symbol : String)
  | getPositions (symbol : String)
  | placeOrder (symbol : String) (qty : ℚ) (side : String) (tp sl : PyFloat)
  | closePosition (symbol : String) (pos_side : String) (qty : ℚ)
deriving DecidableEq, Repr

/-- Oracle for the exchange transport: the outcome each call would have.
`none` in `prices`/`positionsRaw` models a raised exchange error. -/
structure ExchangeOracle where
  setLeverageResult : String → PyFloat → LevResult
  prices : String → Option Prices
  positionsRaw : String → Option (List Position)

/-- `BybitExchange.get_open_positions`: fetch the symbol's position rows and
keep those with `size > 0`; `none` models a raised error. -/
def get_open_positions (ex : ExchangeOracle) (symbol : String) :
    Option (List Position) :=
  (ex.positionsRaw symbol).map (List.filter (fun p => decide (0 < p.size)))

/-- `TradingStrategy._process_entry`, returning the exchange calls made.
Mirrors the source step for step: cache lookup (miss → warning, no calls),
`set_leverage` (an `err` outcome aborts, `alreadySet` is success),
`get_symbol_prices` (failure aborts), `_calculate_qty` (`None` aborts),
`_round_quantity` (an exception propagates after the calls so far), then
the market order (its own failure only logs). -/
def process_entry (cfg : TradeConfig) (cache : List (String × String))
    (ex : ExchangeOracle) (signal : EntrySignal) : List ExchCall :=
  let symbol_full := signal.asset ++ "USDT"
  match cache.lookup symbol_full with
  | none => []
  | some min_order_qty =>
    let calls := [ExchCall.setLeverage symbol_full signal.leverage]
    match ex.setLeverageResult symbol_full signal.leverage with
    | LevResult.err => calls
    | _ =>
      let calls := calls ++ [ExchCall.getPrices symbol_full]
      match ex.prices symbol_full with
      | none => calls
      | some prices =>
        let current_price := prices.last
        match calculate_qty cfg current_price signal.leverage with
        | none => calls
        | some qty =>
          match round_quantity qty min_order_qty with
          | none => calls
          | some qty_rounded =>
            let side := if signal.direction = "Long" then "Buy" else "Sell"
            calls ++ [ExchCall.placeOrder symbol_full qty_rounded side
              signal.tp signal.sl]

/-- `TradingStrategy._process_exit`, returning the exchange calls made:
cache lookup (miss → warning, no calls), `get_open_positions` (failure or
an empty result stops after that one call), quantity from the first open
position (`all` → full size, `percentage` → proportional part, anything
else → warning), rounding, then the reduce-only close order. -/
def process_exit (cache : List (String × String)) (ex : ExchangeOracle)
    (signal : ExitSignal) : List ExchCall :=
  let symbol_full := signal.asset ++ "USDT"
  match cache.lookup symbol_full with
  | none => []
  | some min_order_qty =>
    let calls := [ExchCall.getPositions symbol_full]
    match get_open_positions ex symbol_full with
    | none => calls
    | some positions =>
      match positions with
      | [] => calls
      | pos :: _ =>
        let pos_size := pos.size
        let pos_side := pos.side
        let qty_to_close? : Option ℚ :=
          if signal.exit_type = "all" then some pos_size
          else if signal.exit_type = "percentage" then
            signal.percentage.map (fun p => pos_size * (p / 100))
          else none
        match qty_to_close? with
        | none => calls
        | some qty_to_close =>
          match round_quantity (PyFloat.finite qty_to_close) min_order_qty with
          | none => calls
          | some qty_rounded =>
            calls ++ [ExchCall.closePosition symbol_full pos_side qty_rounded]

/-- `TradingStrategy.process_signal`: `None` is a no-op, otherwise dispatch
on the signal's variant; errors inside are caught, so the returned trace is
whatever the sub-operation performed. -/
def process_signal (cfg : TradeConfig) (cache : List (String × String))
    (ex : ExchangeOracle) (signal : Option Signal) : List ExchCall :=
  match signal with
  | none => []
  | some (Signal.entry e) => process_entry cfg cache ex e
  | some (Signal.exit x) => process_exit cache ex x

/-! ## Message-ingestion polling loop (`src/telegram/parser.py`)

`_polling_loop` repeatedly fetches the most recent messages (newest first),
keeps those whose ids are not in `processed_ids`, and for each — oldest
first — adds the id to the set and then handles the message.  A cycle is
modelled by the fetched id list; the per-message work is recorded as an
`ins` event (the `processed_ids.add`) followed by a `disp` event (the
`_handle_message` dispatch). -/

/-- An observable event of the polling loop. -/
inductive PollEv where
  | ins (id : ℕ)
  | disp (id : ℕ)
deriving DecidableEq, Repr

/-- Loop state: the dedup ledger and the event trace so far. -/
structure PollState where
  processed_ids : Finset ℕ
  trace : List PollEv

/-- The `for message in reversed(new_messages)` body: insert the id into
`processed_ids`, then dispatch. -/
def handle_new : PollState → List ℕ → PollState
  | st, [] => st
  | st, id :: rest =>
    handle_new
      ⟨insert id st.processed_ids,
        st.trace ++ [PollEv.ins id, PollEv.disp id]⟩ rest

/-- One poll cycle over the fetched `messages` (newest first): filter out
already-processed ids, then run the per-message body oldest first. -/
def poll_cycle (st : PollState) (messages : List ℕ) : PollState :=
  let new_messages := messages.filter (fun i => decide (i ∉ st.processed_ids))
  handle_new st new_messages.reverse

/-- A run of the polling loop over a sequence of fetch results. -/
def run_poll (st : PollState) (cycles : List (List ℕ)) : PollState :=
  cycles.foldl poll_cycle st

/-- The trace block a batch of new messages appends. -/
def blocksOf (l : List ℕ) : List PollEv :=
  l.flatMap (fun i => [PollEv.ins i, PollEv.disp i])

/-- Number of `ins id` events in a trace. -/
def insCount (t : List PollEv) (id : ℕ) : ℕ := t.count (PollEv.ins id)

/-- Number of `disp id` events in a trace. -/
def dispCount (t : List PollEv) (id : ℕ) : ℕ := t.count (PollEv.disp id)

/-- The dispatched ids of a trace, in order. -/
def dispIds (t : List PollEv) : List ℕ :=
  t.filterMap (fun e => match e with
    | PollEv.disp i => some i
    | PollEv.ins _ => none)

/-! ## Handler statistics (`src/telegram/handler_wrapper.py`) -/

/-- The `HandlerStats` counters. -/
structure HandlerStats where
  total_processed : ℕ
  successful : ℕ
  failed : ℕ
  consecutive_failures : ℕ
deriving DecidableEq, Repr

/-- `HandlerStats.__init__`: all counters start at zero. -/
def HandlerStats.init : HandlerStats := ⟨0, 0, 0, 0⟩

/-- `HandlerStats.record_success`. -/
def HandlerStats.record_success (s : HandlerStats) : HandlerStats :=
  { s with
    total_processed := s.total_processed + 1
    successful := s.successful + 1
    consecutive_failures := 0 }

/-- `HandlerStats.record_failure`. -/
def HandlerStats.record_failure (s : HandlerStats) : HandlerStats :=
  { s with
    total_processed := s.total_processed + 1
    failed := s.failed + 1
    consecutive_failures := s.consecutive_failures + 1 }

/-- A call to one of the two recording methods. -/
inductive StatsOp where
  | success
  | failure
deriving DecidableEq, Repr

/-- Apply a sequence of recording calls to a stats value. -/
def applyOps (s : HandlerStats) (ops : List StatsOp) : HandlerStats :=
  ops.foldl
    (fun st op =>
      match op with
      | StatsOp.success => st.record_success
      | StatsOp.failure => st.record_failure) s

/-! ## Sanity checks: the spec's parser test vectors (small literals) -/

theorem sanity_parse_noise : parse "NOISE" = none := by
  with_unfolding_all decide

theorem sanity_parse_entry_vector : parse "BTC Long Leverage:5x TP:700 SL:600" =
    some (Signal.entry ⟨"BTC", "Long", PyFloat.finite 5, PyFloat.finite 700,
      PyFloat.finite 600⟩) := by
  with_unfolding_all decide

theorem sanity_parse_exit_all : parse "ETH close all" =
    some (Signal.exit ⟨"ETH", "all", none⟩) := by
  with_unfolding_all decide

theorem sanity_parse_exit_pct : parse "ETH close 50%" =
    some (Signal.exit ⟨"ETH", "percentage", some 50⟩) := by
  with_unfolding_all decide

theorem sanity_parse_exit_oob : parse "ETH close 150%" = none := by
  with_unfolding_all decide

theorem sanity_parse_garbage : parse "hello world" = none := by
  with_unfolding_all decide

/-! ## Parser lemmas -/

/-- Unfolding equation of `parse`. -/
theorem parse_def (s : String) :
    parse s =
      (if pyStrip s = "NOISE" then none
       else
         match parse_entry (pyStrip s) with
         | some e => some (Signal.entry e)
         | none =>
           match parse_exit (pyStrip s) with
           | some x => some (Signal.exit x)
           | none => none) := rfl

/-- If the entry regex does not match, `_parse_entry` returns `None`. -/
theorem parse_entry_of_matchEntry_none {r : String}
    (h : matchEntry r = none) : parse_entry r = none := by
  simp only [parse_entry, h]

/-- If the entry regex matches and all three groups convert, `_parse_entry`
returns the corresponding `EntrySignal`. -/
theorem parse_entry_of_all_numbers {r a d l t u : String}
    {lv tv uv : PyFloat}
    (hm : matchEntry r = some (a, d, l, t, u))
    (h1 : parse_number l = some lv) (h2 : parse_number t = some tv)
    (h3 : parse_number u = some uv) :
    parse_entry r = some ⟨a, d, lv, tv, uv⟩ := by
  simp only [parse_entry, hm, h1, h2, h3]

/-- If the entry regex matches but some numeric group fails to convert,
`_parse_entry` returns `None`. -/
theorem parse_entry_of_bad_number {r a d l t u : String}
    (hm : matchEntry r = some (a, d, l, t, u))
    (hbad : parse_number l = none ∨ parse_number t = none ∨
      parse_number u = none) :
    parse_entry r = none := by
  simp only [parse_entry, hm]
  cases h1 : parse_number l <;> cases h2 : parse_number t <;>
    cases h3 : parse_number u <;>
      simp_all

/-- If the exit regex does not match, `_parse_exit` returns `None`. -/
theorem parse_exit_of_matchExit_none {r : String}
    (h : matchExit r = none) : parse_exit r = none := by
  simp only [parse_exit, h]

/-- A percentage inside `(0, 100]` yields the percentage `ExitSignal`. -/
theorem parse_exit_of_pct_ok {r a v : String} {p : ℚ}
    (hx : matchExit r = some (a, v)) (hall : pyStrip v ≠ "all")
    (hp : pctMatch (pyStrip v) = some p) (hin : 0 < p ∧ p ≤ 100) :
    parse_exit r = some ⟨a, "percentage", some p⟩ := by
  simp only [parse_exit, hx, if_neg hall, hp, if_pos hin]

/-- A percentage outside `(0, 100]` invalidates the whole `ExitSignal`. -/
theorem parse_exit_of_pct_oob {r a v : String} {p : ℚ}
    (hx : matchExit r = some (a, v)) (hall : pyStrip v ≠ "all")
    (hp : pctMatch (pyStrip v) = some p) (hoob : ¬(0 < p ∧ p ≤ 100)) :
    parse_exit r = none := by
  simp only [parse_exit, hx, if_neg hall, hp, if_neg hoob]

/-- The direction group of `(Long|Short)` is one of the two literals. -/
theorem matchDirection_spec {cs : List Char} {d : String} {r : List Char}
    (h : matchDirection cs = some (d, r)) : d = "Long" ∨ d = "Short" := by
  unfold matchDirection at h
  cases h1 : dropLit "Long".toList cs with
  | some r1 =>
    rw [h1] at h
    injection h with h2
    injection h2 with h3 h4
    exact Or.inl h3.symm
  | none =>
    rw [h1] at h
    cases h2 : dropLit "Short".toList cs with
    | some r2 =>
      rw [h2] at h
      injection h with h3
      injection h3 with h4 h5
      exact Or.inr h4.symm
    | none => rw [h2] at h; exact Option.noConfusion h

/-- The direction group of a successful entry match is `Long` or `Short`. -/
theorem matchEntry_direction {s : String} {a d l t u : String}
    (h : matchEntry s = some (a, d, l, t, u)) :
    d = "Long" ∨ d = "Short" := by
  unfold matchEntry at h
  cases h0 : plusRun isWordChar s.toList with
  | none => rw [h0] at h; exact Option.noConfusion h
  | some p0 =>
    obtain ⟨asset, r1⟩ := p0
    simp only [h0] at h
    cases h1 : plusRun isSpaceChar r1 with
    | none => rw [h1] at h; exact Option.noConfusion h
    | some p1 =>
      obtain ⟨w1, r2⟩ := p1
      simp only [h1] at h
      cases h2 : matchDirection r2 with
      | none => rw [h2] at h; exact Option.noConfusion h
      | some p2 =>
        obtain ⟨dir, r3⟩ := p2
        simp only [h2] at h
        have hdir := matchDirection_spec h2
        cases h3 : plusRun isSpaceChar r3 with
        | none => rw [h3] at h; exact Option.noConfusion h
        | some p3 =>
          obtain ⟨w2, r4⟩ := p3
          simp only [h3] at h
          cases h4 : dropLit "Leverage:".toList r4 with
          | none => rw [h4] at h; exact Option.noConfusion h
          | some r5 =>
            simp only [h4] at h
            cases h5 : plusRun (fun c => !isSpaceChar c) r5 with
            | none => rw [h5] at h; exact Option.noConfusion h
            | some p5 =>
              obtain ⟨lev, r6⟩ := p5
              simp only [h5] at h
              cases h6 : plusRun isSpaceChar r6 with
              | none => rw [h6] at h; exact Option.noConfusion h
              | some p6 =>
                obtain ⟨w3, r7⟩ := p6
                simp only [h6] at h
                cases h7 : dropLit "TP:".toList r7 with
                | none => rw [h7] at h; exact Option.noConfusion h
                | some r8 =>
                  simp only [h7] at h
                  cases h8 : plusRun (fun c => !isSpaceChar c) r8 with
                  | none => rw [h8] at h; exact Option.noConfusion h
                  | some p8 =>
                    obtain ⟨tp, r9⟩ := p8
                    simp only [h8] at h
                    cases h9 : plusRun isSpaceChar r9 with
                    | none => rw [h9] at h; exact Option.noConfusion h
                    | some p9 =>
                      obtain ⟨w4, r10⟩ := p9
                      simp only [h9] at h
                      cases h10 : dropLit "SL:".toList r10 with
                      | none => rw [h10] at h; exact Option.noConfusion h
                      | some r11 =>
                        simp only [h10] at h
                        cases h11 : plusRun (fun c => !isSpaceChar c) r11 with
                        | none => rw [h11] at h; exact Option.noConfusion h
                        | some p11 =>
                          obtain ⟨sl, r12⟩ := p11
                          simp only [h11] at h
                          simp only [Option.some.injEq, Prod.mk.injEq] at h
                          obtain ⟨-, hd, -⟩ := h
                          exact hd ▸ hdir

/-- A successful `_parse_entry` result's direction is `Long` or `Short`. -/
theorem parse_entry_direction {r : String} {e : EntrySignal}
    (h : parse_entry r = some e) :
    e.direction = "Long" ∨ e.direction = "Short" := by
  unfold parse_entry at h
  cases hm : matchEntry r with
  | none => rw [hm] at h; exact Option.noConfusion h
  | some g =>
    obtain ⟨a, d, l, t, u⟩ := g
    rw [hm] at h
    have hd := matchEntry_direction hm
    cases h1 : parse_number l with
    | none => simp only [h1] at h; exact Option.noConfusion h
    | some lv =>
      simp only [h1] at h
      cases h2 : parse_number t with
      | none => simp only [h2] at h; exact Option.noConfusion h
      | some tv =>
        simp only [h2] at h
        cases h3 : parse_number u with
        | none => simp only [h3] at h; exact Option.noConfusion h
        | some uv =>
          simp only [h3] at h
          injection h with h4
          subst h4
          exact hd

/-! ## Claims about the signal grammar -/

/-- C3 (counterexample): the claim requires every numeric token of a
returned `EntrySignal` to parse as a *finite* float, but `float("inf")`
succeeds in `_parse_number`, so `parse` returns an `EntrySignal` whose
leverage token `inf` is not a finite float. -/
theorem C3_nonfinite_accepted_cex :
    parse "BTC Long Leverage:inf TP:1 SL:2" =
      some (Signal.entry ⟨"BTC", "Long", PyFloat.inf, PyFloat.finite 1,
        PyFloat.finite 2⟩) ∧
    ∀ q : ℚ, parse_number "inf" ≠ some (PyFloat.finite q) := by
  refine ⟨by with_unfolding_all decide, ?_⟩
  intro q h
  have hinf : parse_number "inf" = some PyFloat.inf := by
    with_unfolding_all decide
  rw [hinf] at h
  exact PyFloat.noConfusion (Option.some.inj h)

/-- C3 (amended): for every classifier answer matching the entry shape,
`parse` returns an `EntrySignal` exactly when all three numeric tokens,
after stripping trailing `x` characters from each of them, convert as
Python floats — finiteness is not checked, so `inf`/`nan` are accepted; if
any token fails to convert, the whole entry match is invalidated and
`parse` falls through to the exit grammar and then to the unparseable
result. -/
theorem C3_entry_numeric_validation (s asset dir lev tp sl : String)
    (hn : pyStrip s ≠ "NOISE")
    (hm : matchEntry (pyStrip s) = some (asset, dir, lev, tp, sl)) :
    (∀ lv tv uv : PyFloat, parse_number lev = some lv →
      parse_number tp = some tv → parse_number sl = some uv →
      parse s = some (Signal.entry ⟨asset, dir, lv, tv, uv⟩)) ∧
    ((parse_number lev = none ∨ parse_number tp = none ∨
        parse_number sl = none) →
      parse s = (parse_exit (pyStrip s)).map Signal.exit) := by
  constructor
  · intro lv tv uv h1 h2 h3
    rw [parse_def, if_neg hn, parse_entry_of_all_numbers hm h1 h2 h3]
  · intro hbad
    rw [parse_def, if_neg hn, parse_entry_of_bad_number hm hbad]
    cases parse_exit (pyStrip s) <;> rfl

/-- C3 (witness): instantiation at `"BTC Long Leverage:5x TP:1 SL:2"`. -/
theorem C3_entry_numeric_validation_witness :
    (pyStrip "BTC Long Leverage:5x TP:1 SL:2" ≠ "NOISE") ∧
    (matchEntry (pyStrip "BTC Long Leverage:5x TP:1 SL:2") =
      some ("BTC", "Long", "5x", "1", "2")) ∧
    ((∀ lv tv uv : PyFloat, parse_number "5x" = some lv →
      parse_number "1" = some tv → parse_number "2" = some uv →
      parse "BTC Long Leverage:5x TP:1 SL:2" =
        some (Signal.entry ⟨"BTC", "Long", lv, tv, uv⟩)) ∧
    ((parse_number "5x" = none ∨ parse_number "1" = none ∨
        parse_number "2" = none) →
      parse "BTC Long Leverage:5x TP:1 SL:2" =
        (parse_exit (pyStrip "BTC Long Leverage:5x TP:1 SL:2")).map
          Signal.exit)) := by
  have h1 : pyStrip "BTC Long Leverage:5x TP:1 SL:2" ≠ "NOISE" := by
    with_unfolding_all decide
  have h2 : matchEntry (pyStrip "BTC Long Leverage:5x TP:1 SL:2") =
      some ("BTC", "Long", "5x", "1", "2") := by
    with_unfolding_all decide
  exact ⟨h1, h2, C3_entry_numeric_validation _ _ _ _ _ _ h1 h2⟩

/-- C4 (counterexample): the claimed invariant `leverage > 0` fails — the
parser performs no positivity validation, so a negative leverage token
produces an `EntrySignal` with a negative leverage. -/
theorem C4_positivity_cex :
    parse "BTC Long Leverage:-5 TP:1 SL:2" =
      some (Signal.entry ⟨"BTC", "Long", PyFloat.finite (-5),
        PyFloat.finite 1, PyFloat.finite 2⟩) ∧
    ¬ (0 < (-5 : ℚ)) := by
  exact ⟨by with_unfolding_all decide, by norm_num⟩

/-- C4 (amended): every `EntrySignal` value that `parse` returns has
direction `Long` or `Short`; its leverage, tp and sl are whatever float
values the tokens converted to, with no positivity (or finiteness)
validation, so zero, negative, infinite and NaN values pass through. -/
theorem C4_entry_direction (s : String) (e : EntrySignal)
    (h : parse s = some (Signal.entry e)) :
    e.direction = "Long" ∨ e.direction = "Short" := by
  rw [parse_def] at h
  by_cases hn : pyStrip s = "NOISE"
  · rw [if_pos hn] at h; exact Option.noConfusion h
  · rw [if_neg hn] at h
    cases hp : parse_entry (pyStrip s) with
    | some e' =>
      rw [hp] at h
      have he := Option.some.inj h
      have he2 : e' = e := by injection he
      exact he2 ▸ parse_entry_direction hp
    | none =>
      rw [hp] at h
      cases hx : parse_exit (pyStrip s) with
      | some x =>
        rw [hx] at h
        exact Signal.noConfusion (Option.some.inj h)
      | none => rw [hx] at h; exact Option.noConfusion h

/-- C4 (witness): instantiation at a concrete entry answer. -/
theorem C4_entry_direction_witness :
    parse "SOL Short Leverage:3 TP:10 SL:20" =
      some (Signal.entry ⟨"SOL", "Short", PyFloat.finite 3,
        PyFloat.finite 10, PyFloat.finite 20⟩) ∧
    ((⟨"SOL", "Short", PyFloat.finite 3, PyFloat.finite 10,
        PyFloat.finite 20⟩ : EntrySignal).direction = "Long" ∨
      (⟨"SOL", "Short", PyFloat.finite 3, PyFloat.finite 10,
        PyFloat.finite 20⟩ : EntrySignal).direction = "Short") := by
  have h : parse "SOL Short Leverage:3 TP:10 SL:20" =
      some (Signal.entry ⟨"SOL", "Short", PyFloat.finite 3,
        PyFloat.finite 10, PyFloat.finite 20⟩) := by
    with_unfolding_all decide
  exact ⟨h, C4_entry_direction _ _ h⟩

/-- C5 (confirmed): a classifier answer matching the exit shape with a
numeric percentage token yields the percentage `ExitSignal` exactly when
the value lies in `(0, 100]`; otherwise the whole signal is invalidated and
`parse` returns the unparseable result — never a clamped value. -/
theorem C5_percentage_bounds (s a v : String) (p : ℚ)
    (hn : pyStrip s ≠ "NOISE")
    (he : matchEntry (pyStrip s) = none)
    (hx : matchExit (pyStrip s) = some (a, v))
    (hall : pyStrip v ≠ "all")
    (hp : pctMatch (pyStrip v) = some p) :
    (0 < p ∧ p ≤ 100 →
      parse s = some (Signal.exit ⟨a, "percentage", some p⟩)) ∧
    (¬(0 < p ∧ p ≤ 100) → parse s = none) := by
  constructor
  · intro hin
    rw [parse_def, if_neg hn, parse_entry_of_matchEntry_none he,
      parse_exit_of_pct_ok hx hall hp hin]
  · intro hoob
    rw [parse_def, if_neg hn, parse_entry_of_matchEntry_none he,
      parse_exit_of_pct_oob hx hall hp hoob]

/-- C5 (witness): `"ETH close 150%"` is rejected, not clamped. -/
theorem C5_percentage_bounds_witness :
    (pyStrip "ETH close 150%" ≠ "NOISE") ∧
    (matchEntry (pyStrip "ETH close 150%") = none) ∧
    (matchExit (pyStrip "ETH close 150%") = some ("ETH", "150%")) ∧
    (pyStrip "150%" ≠ "all") ∧
    (pctMatch (pyStrip "150%") = some 150) ∧
    ¬(0 < (150 : ℚ) ∧ (150 : ℚ) ≤ 100) ∧
    parse "ETH close 150%" = none := by
  have h1 : pyStrip "ETH close 150%" ≠ "NOISE" := by
    with_unfolding_all decide
  have h2 : matchEntry (pyStrip "ETH close 150%") = none := by
    with_unfolding_all decide
  have h3 : matchExit (pyStrip "ETH close 150%") = some ("ETH", "150%") := by
    with_unfolding_all decide
  have h4 : pyStrip "150%" ≠ "all" := by with_unfolding_all decide
  have h5 : pctMatch (pyStrip "150%") = some 150 := by
    with_unfolding_all decide
  have h6 : ¬(0 < (150 : ℚ) ∧ (150 : ℚ) ≤ 100) := by norm_num
  exact ⟨h1, h2, h3, h4, h5, h6,
    (C5_percentage_bounds _ _ _ _ h1 h2 h3 h4 h5).2 h6⟩

/-- C8 (confirmed): `parse` is a total function into the three result
shapes; a string matching neither grammar yields the unparseable result,
and so does a string matching a grammar whose numeric or bounds validation
fails. -/
theorem C8_parse_total (s : String) :
    (parse s = none ∨ (∃ e, parse s = some (Signal.entry e)) ∨
      (∃ x, parse s = some (Signal.exit x))) ∧
    (matchEntry (pyStrip s) = none → matchExit (pyStrip s) = none →
      parse s = none) ∧
    (∀ a d l t u, matchEntry (pyStrip s) = some (a, d, l, t, u) →
      (parse_number l = none ∨ parse_number t = none ∨
        parse_number u = none) →
      matchExit (pyStrip s) = none → parse s = none) ∧
    (∀ a v p, matchEntry (pyStrip s) = none →
      matchExit (pyStrip s) = some (a, v) → pyStrip v ≠ "all" →
      pctMatch (pyStrip v) = some p → ¬(0 < p ∧ p ≤ 100) →
      parse s = none) := by
  refine ⟨?_, ?_, ?_, ?_⟩
  · cases hp : parse s with
    | none => exact Or.inl rfl
    | some sig =>
      cases sig with
      | entry e => exact Or.inr (Or.inl ⟨e, rfl⟩)
      | exit x => exact Or.inr (Or.inr ⟨x, rfl⟩)
  · intro he hx
    rw [parse_def]
    by_cases hn : pyStrip s = "NOISE"
    · rw [if_pos hn]
    · rw [if_neg hn, parse_entry_of_matchEntry_none he,
        parse_exit_of_matchExit_none hx]
  · intro a d l t u hm hbad hx
    rw [parse_def]
    by_cases hn : pyStrip s = "NOISE"
    · rw [if_pos hn]
    · rw [if_neg hn, parse_entry_of_bad_number hm hbad,
        parse_exit_of_matchExit_none hx]
  · intro a v p he hx hall hp hoob
    rw [parse_def]
    by_cases hn : pyStrip s = "NOISE"
    · rw [if_pos hn]
    · rw [if_neg hn, parse_entry_of_matchEntry_none he,
        parse_exit_of_pct_oob hx hall hp hoob]

/-- C8 (witness): instantiation at `"hello world"`, which matches neither
grammar. -/
theorem C8_parse_total_witness :
    (matchEntry (pyStrip "hello world") = none) ∧
    (matchExit (pyStrip "hello world") = none) ∧
    parse "hello world" = none := by
  have h1 : matchEntry (pyStrip "hello world") = none := by
    with_unfolding_all decide
  have h2 : matchExit (pyStrip "hello world") = none := by
    with_unfolding_all decide
  exact ⟨h1, h2, (C8_parse_total "hello world").2.1 h1 h2⟩

/-! ## Claims about quantity rounding (C1) -/

/-- C1 (counterexample): the claim says the minimum order quantity string
`"1"` yields 0 decimal digits, but the cache stores `float("1")`, whose
`str()` is `"1.0"`, so `_round_quantity` uses 1 decimal digit — observable
because `round(2.5, 1) = 2.5` while rounding to 0 digits gives `2`. -/
theorem C1_min_qty_repr_cex :
    decimal_places (pyFloatRepr "1") = 1 ∧
    decimal_places (pyFloatRepr "1") ≠ 0 ∧
    pyRound (5/2) (decimal_places (pyFloatRepr "1")) = 5/2 ∧
    pyRound (5/2) 0 = 2 := by
  with_unfolding_all decide

/-- C1 (amended): the rounding precision is the fractional decimal digit
count of the *cached float's* string representation: `"0.001"` still
yields 3 digits, but an integral minimum order quantity such as `"1"` is
stored as the float `1.0` and yields 1 digit, not 0; `_round_quantity`
rounds every finite quantity to exactly that many digits. -/
theorem C1_rounding_precision (q : ℚ) (minq : String) :
    decimal_places (pyFloatRepr "0.001") = 3 ∧
    decimal_places (pyFloatRepr "1") = 1 ∧
    ∃ k : ℤ, round_quantity (PyFloat.finite q) (pyFloatRepr minq) =
      some ((k : ℚ) / 10 ^ decimal_places (pyFloatRepr minq)) := by
  refine ⟨by with_unfolding_all decide, by with_unfolding_all decide,
    ⟨roundHalfEven (q * 10 ^ decimal_places (pyFloatRepr minq)), ?_⟩⟩
  simp only [round_quantity, pyRound]

/-! ## Polling-loop lemmas -/

/-- `handle_new` appends exactly the `ins`/`disp` block of its batch. -/
theorem handle_new_trace (b : List ℕ) :
    ∀ st : PollState, (handle_new st b).trace = st.trace ++ blocksOf b := by
  induction b with
  | nil => intro st; simp [handle_new, blocksOf]
  | cons i rest ih =>
    intro st
    simp only [handle_new, ih, blocksOf, List.flatMap_cons, List.append_assoc,
      List.cons_append, List.nil_append]

/-- `handle_new` adds exactly the batch's ids to the ledger. -/
theorem handle_new_processed (b : List ℕ) :
    ∀ (st : PollState) (i : ℕ),
      i ∈ (handle_new st b).processed_ids ↔
        i ∈ st.processed_ids ∨ i ∈ b := by
  induction b with
  | nil => intro st i; simp [handle_new]
  | cons a rest ih =>
    intro st i
    simp only [handle_new, ih, Finset.mem_insert, List.mem_cons]
    tauto

/-- The reachability invariant of the polling loop: the trace is a
concatenation of `ins`/`disp` blocks over a duplicate-free id list, which
lists exactly the ledger entries that were not seeded initially. -/
def PollInv (P0 : Finset ℕ) (st : PollState) : Prop :=
  P0 ⊆ st.processed_ids ∧
  ∃ l : List ℕ, st.trace = blocksOf l ∧ l.Nodup ∧
    ∀ i, i ∈ l ↔ (i ∈ st.processed_ids ∧ i ∉ P0)

/-- The invariant holds at the seeded initial state. -/
theorem pollInv_init (P0 : Finset ℕ) : PollInv P0 ⟨P0, []⟩ := by
  refine ⟨Finset.Subset.refl P0, [], rfl, List.nodup_nil, ?_⟩
  intro i
  simp

/-- The per-message body preserves the invariant for a batch of fresh,
duplicate-free ids. -/
theorem handle_new_inv (P0 : Finset ℕ) (b : List ℕ) :
    ∀ st : PollState, PollInv P0 st → b.Nodup →
      (∀ i ∈ b, i ∉ st.processed_ids) → PollInv P0 (handle_new st b) := by
  induction b with
  | nil => intro st h _ _; exact h
  | cons id rest ih =>
    intro st h hbnd hfresh
    obtain ⟨hsub, l, htr, hnd, hmem⟩ := h
    have hid_not : id ∉ st.processed_ids := hfresh id (List.mem_cons_self _ _)
    have hid_notP0 : id ∉ P0 := fun hc => hid_not (hsub hc)
    have hid_notl : id ∉ l := fun hc => hid_not ((hmem id).mp hc).1
    apply ih
    · refine ⟨hsub.trans (Finset.subset_insert id st.processed_ids),
        l ++ [id], ?_, ?_, ?_⟩
      · show st.trace ++ [PollEv.ins id, PollEv.disp id] = blocksOf (l ++ [id])
        simp [htr, blocksOf]
      · simp [List.nodup_append, hnd, hid_notl]
      · intro i
        show i ∈ l ++ [id] ↔
          i ∈ insert id st.processed_ids ∧ i ∉ P0
        simp only [List.mem_append, List.mem_singleton, Finset.mem_insert,
          hmem i]
        constructor
        · rintro (⟨hin, hout⟩ | rfl)
          · exact ⟨Or.inr hin, hout⟩
          · exact ⟨Or.inl rfl, hid_notP0⟩
        · rintro ⟨rfl | hin, hout⟩
          · exact Or.inr rfl
          · exact Or.inl ⟨hin, hout⟩
    · exact hbnd.of_cons
    · intro i hi
      have hne : i ≠ id := by
        intro hc
        subst hc
        exact (List.nodup_cons.mp hbnd).1 hi
      have : i ∉ st.processed_ids := hfresh i (List.mem_cons_of_mem _ hi)
      simp [Finset.mem_insert, hne, this]

/-- One poll cycle preserves the invariant when the fetched message ids are
duplicate-free. -/
theorem poll_cycle_inv (P0 : Finset ℕ) (st : PollState) (messages : List ℕ)
    (h : PollInv P0 st) (hnd : messages.Nodup) :
    PollInv P0 (poll_cycle st messages) := by
  apply handle_new_inv
  · exact h
  · exact List.nodup_reverse.mpr (hnd.filter _)
  · intro i hi
    rw [List.mem_reverse, List.mem_filter] at hi
    exact of_decide_eq_true hi.2

/-- A run over duplicate-free cycles preserves the invariant. -/
theorem run_poll_inv (P0 : Finset ℕ) (cycles : List (List ℕ)) :
    ∀ st : PollState, PollInv P0 st → (∀ c ∈ cycles, c.Nodup) →
      PollInv P0 (run_poll st cycles) := by
  induction cycles with
  | nil => intro st h _; exact h
  | cons c rest ih =>
    intro st h hnd
    exact ih _ (poll_cycle_inv P0 st c h (hnd c (List.mem_cons_self _ _)))
      (fun c' hc' => hnd c' (List.mem_cons_of_mem _ hc'))

/-- After a run, the ledger holds the seed plus every fetched id. -/
theorem run_poll_processed (cycles : List (List ℕ)) :
    ∀ (st : PollState) (i : ℕ),
      i ∈ (run_poll st cycles).processed_ids ↔
        i ∈ st.processed_ids ∨ ∃ c ∈ cycles, i ∈ c := by
  induction cycles with
  | nil => intro st i; simp [run_poll]
  | cons msgs rest ih =>
    intro st i
    show i ∈ (run_poll (poll_cycle st msgs) rest).processed_ids ↔ _
    rw [ih]
    have hcyc : i ∈ (poll_cycle st msgs).processed_ids ↔
        i ∈ st.processed_ids ∨ i ∈ msgs := by
      unfold poll_cycle
      rw [handle_new_processed]
      simp only [List.mem_reverse, List.mem_filter, decide_not,
        Bool.not_eq_eq_eq_not, Bool.not_true, decide_eq_false_iff_not]
      constructor
      · rintro (h | ⟨h1, h2⟩)
        · exact Or.inl h
        · exact Or.inr h1
      · rintro (h | h)
        · exact Or.inl h
        · by_cases hp : i ∈ st.processed_ids
          · exact Or.inl hp
          · exact Or.inr ⟨h, hp⟩
    rw [hcyc]
    simp only [List.mem_cons]
    constructor
    · rintro ((h | h) | ⟨c, hc, hi⟩)
      · exact Or.inl h
      · exact Or.inr ⟨msgs, Or.inl rfl, h⟩
      · exact Or.inr ⟨c, Or.inr hc, hi⟩
    · rintro (h | ⟨c, (rfl | hc), hi⟩)
      · exact Or.inl (Or.inl h)
      · exact Or.inl (Or.inr hi)
      · exact Or.inr ⟨c, hc, hi⟩

/-- Counting `disp` events in a block list counts the id itself. -/
theorem blocksOf_count_disp (l : List ℕ) (id : ℕ) :
    (blocksOf l).count (PollEv.disp id) = l.count id := by
  induction l with
  | nil => rfl
  | cons a rest ih =>
    have hb : blocksOf (a :: rest) =
        PollEv.ins a :: PollEv.disp a :: blocksOf rest := rfl
    rw [hb, List.count_cons, List.count_cons, List.count_cons, ih]
    by_cases h : a = id <;> simp [h]

/-- Counting `ins` events in a block list counts the id itself. -/
theorem blocksOf_count_ins (l : List ℕ) (id : ℕ) :
    (blocksOf l).count (PollEv.ins id) = l.count id := by
  induction l with
  | nil => rfl
  | cons a rest ih =>
    have hb : blocksOf (a :: rest) =
        PollEv.ins a :: PollEv.disp a :: blocksOf rest := rfl
    rw [hb, List.count_cons, List.count_cons, List.count_cons, ih]
    by_cases h : a = id <;> simp [h]

/-- In a block list, every `disp` is preceded by the matching `ins`. -/
theorem blocksOf_ins_before_disp (l : List ℕ) (id : ℕ) :
    ∀ n : ℕ, (blocksOf l)[n]? = some (PollEv.disp id) →
      ∃ m, m < n ∧ (blocksOf l)[m]? = some (PollEv.ins id) := by
  induction l with
  | nil => intro n h; simp [blocksOf] at h
  | cons a rest ih =>
    have hb : blocksOf (a :: rest) =
        PollEv.ins a :: PollEv.disp a :: blocksOf rest := rfl
    intro n h
    rw [hb] at h
    match n with
    | 0 => simp at h
    | 1 =>
      simp only [List.getElem?_cons_succ, List.getElem?_cons_zero,
        Option.some.injEq] at h
      have ha : a = id := by injection h
      subst ha
      exact ⟨0, by omega, by rw [hb]; simp⟩
    | (k + 2) =>
      rw [List.getElem?_cons_succ, List.getElem?_cons_succ] at h
      obtain ⟨m, hm, hget⟩ := ih k h
      refine ⟨m + 2, by omega, ?_⟩
      rw [hb, List.getElem?_cons_succ, List.getElem?_cons_succ]
      exact hget

/-- The dispatched ids of a block list are the list itself. -/
theorem dispIds_blocksOf (l : List ℕ) : dispIds (blocksOf l) = l := by
  induction l with
  | nil => rfl
  | cons a rest ih =>
    show dispIds (PollEv.ins a :: PollEv.disp a :: blocksOf rest) = a :: rest
    simp only [dispIds, List.filterMap_cons] at ih ⊢
    rw [ih]

/-! ## Claims about the ingestion loop (C2, C9) -/

/-- C2 (confirmed): over any sequence of poll cycles with (per-fetch)
distinct message ids, every id is inserted into `processed_ids` at most
once; every id is dispatched at most once, and exactly once when it occurs
in some cycle and was not seeded; and each dispatch is preceded by the
insertion of the same id. -/
theorem C2_dedup_dispatch_once (P0 : Finset ℕ) (cycles : List (List ℕ))
    (hnd : ∀ c ∈ cycles, c.Nodup) :
    (∀ id, insCount (run_poll ⟨P0, []⟩ cycles).trace id ≤ 1) ∧
    (∀ id, dispCount (run_poll ⟨P0, []⟩ cycles).trace id ≤ 1) ∧
    (∀ id, id ∉ P0 → (∃ c ∈ cycles, id ∈ c) →
      dispCount (run_poll ⟨P0, []⟩ cycles).trace id = 1) ∧
    (∀ id n : ℕ,
      (run_poll ⟨P0, []⟩ cycles).trace[n]? = some (PollEv.disp id) →
      ∃ m, m < n ∧
        (run_poll ⟨P0, []⟩ cycles).trace[m]? = some (PollEv.ins id)) := by
  obtain ⟨hsub, l, htr, hnodup, hmem⟩ :=
    run_poll_inv P0 cycles ⟨P0, []⟩ (pollInv_init P0) hnd
  have hcle : ∀ id, l.count id ≤ 1 :=
    List.nodup_iff_count_le_one.mp hnodup
  refine ⟨?_, ?_, ?_, ?_⟩
  · intro id
    simp only [insCount, htr, blocksOf_count_ins]
    exact hcle id
  · intro id
    simp only [dispCount, htr, blocksOf_count_disp]
    exact hcle id
  · intro id hP0 hin
    simp only [dispCount, htr, blocksOf_count_disp]
    have hmem2 : id ∈ l := by
      rw [hmem id]
      refine ⟨?_, hP0⟩
      rw [run_poll_processed]
      exact Or.inr hin
    exact List.count_eq_one_of_mem hnodup hmem2
  · intro id n h
    rw [htr] at h ⊢
    exact blocksOf_ins_before_disp l id n h

/-- C2 (witness): two overlapping cycles over a seeded ledger. -/
theorem C2_dedup_dispatch_once_witness :
    (∀ c ∈ [[12, 11, 10], [13, 12, 11]], List.Nodup c) ∧
    ((∀ id, insCount
        (run_poll ⟨{10}, []⟩ [[12, 11, 10], [13, 12, 11]]).trace id ≤ 1) ∧
    (∀ id, dispCount
        (run_poll ⟨{10}, []⟩ [[12, 11, 10], [13, 12, 11]]).trace id ≤ 1) ∧
    (∀ id, id ∉ ({10} : Finset ℕ) →
      (∃ c ∈ [[12, 11, 10], [13, 12, 11]], id ∈ c) →
      dispCount
        (run_poll ⟨{10}, []⟩ [[12, 11, 10], [13, 12, 11]]).trace id = 1) ∧
    (∀ id n : ℕ,
      (run_poll ⟨{10}, []⟩ [[12, 11, 10], [13, 12, 11]]).trace[n]? =
        some (PollEv.disp id) →
      ∃ m, m < n ∧
        (run_poll ⟨{10}, []⟩ [[12, 11, 10], [13, 12, 11]]).trace[m]? =
          some (PollEv.ins id))) := by
  have h : ∀ c ∈ [[12, 11, 10], [13, 12, 11]], List.Nodup c := by decide
  exact ⟨h, C2_dedup_dispatch_once {10} [[12, 11, 10], [13, 12, 11]] h⟩

/-- C9 (confirmed): within one poll cycle over a newest-first (strictly
descending) fetch, the newly appended dispatches are in strictly ascending
id order. -/
theorem C9_poll_dispatch_ascending (st : PollState) (messages : List ℕ)
    (h : List.Sorted (· > ·) messages) :
    ∃ t, (poll_cycle st messages).trace = st.trace ++ t ∧
      List.Sorted (· < ·) (dispIds t) := by
  refine ⟨blocksOf ((messages.filter
      (fun i => decide (i ∉ st.processed_ids))).reverse),
    handle_new_trace _ st, ?_⟩
  rw [dispIds_blocksOf]
  have hf : List.Sorted (· > ·)
      (messages.filter (fun i => decide (i ∉ st.processed_ids))) :=
    List.Pairwise.filter _ h
  exact List.pairwise_reverse.mpr hf

/-- C9 (witness): a concrete newest-first fetch `[7, 5, 2]`. -/
theorem C9_poll_dispatch_ascending_witness :
    List.Sorted (· > ·) ([7, 5, 2] : List ℕ) ∧
    ∃ t, (poll_cycle ⟨∅, []⟩ [7, 5, 2]).trace =
        (⟨∅, []⟩ : PollState).trace ++ t ∧
      List.Sorted (· < ·) (dispIds t) := by
  have h : List.Sorted (· > ·) ([7, 5, 2] : List ℕ) := by decide
  exact ⟨h, C9_poll_dispatch_ascending ⟨∅, []⟩ [7, 5, 2] h⟩

/-! ## Claims about the execution engine (C6, C7) and statistics (C10) -/

/-- A degenerate exchange oracle whose position query succeeds with no open
rows (used for concrete instantiations). -/
def emptyPosOracle : ExchangeOracle :=
  ⟨fun _ _ => LevResult.ok, fun _ => none, fun _ => some []⟩

/-- C6 (counterexample): an exit signal for a cached symbol with no open
position does *not* result in zero exchange calls — the engine performs the
open-position query itself, so exactly one exchange call happens. -/
theorem C6_zero_calls_cex :
    process_exit [("ETHUSDT", "0.01")] emptyPosOracle ⟨"ETH", "all", none⟩ =
      [ExchCall.getPositions "ETHUSDT"] ∧
    process_exit [("ETHUSDT", "0.01")] emptyPosOracle
      ⟨"ETH", "all", none⟩ ≠ ([] : List ExchCall) := by
  with_unfolding_all decide

/-- C6 (amended): an exit signal for a symbol present in the precision
cache but with no open position results in exactly one exchange call — the
open-position query — and in particular no order placement; after the empty
query result the signal is a no-op. -/
theorem C6_exit_no_position (cache : List (String × String))
    (ex : ExchangeOracle) (signal : ExitSignal) (minq : String)
    (hc : cache.lookup (signal.asset ++ "USDT") = some minq)
    (hp : get_open_positions ex (signal.asset ++ "USDT") = some []) :
    process_exit cache ex signal =
      [ExchCall.getPositions (signal.asset ++ "USDT")] ∧
    ∀ c ∈ process_exit cache ex signal,
      (∀ sym q side tp sl, c ≠ ExchCall.placeOrder sym q side tp sl) ∧
      (∀ sym side q, c ≠ ExchCall.closePosition sym side q) := by
  have h1 : process_exit cache ex signal =
      [ExchCall.getPositions (signal.asset ++ "USDT")] := by
    simp only [process_exit, hc, hp]
  refine ⟨h1, ?_⟩
  intro c hmem
  rw [h1, List.mem_singleton] at hmem
  subst hmem
  exact ⟨fun sym q side tp sl h => ExchCall.noConfusion h,
    fun sym side q h => ExchCall.noConfusion h⟩

/-- C6 (witness): concrete cache, oracle and signal. -/
theorem C6_exit_no_position_witness :
    (List.lookup ("ETHUSDT") [("ETHUSDT", "0.01")] = some "0.01") ∧
    (get_open_positions emptyPosOracle "ETHUSDT" = some []) ∧
    process_exit [("ETHUSDT", "0.01")] emptyPosOracle ⟨"ETH", "all", none⟩ =
      [ExchCall.getPositions "ETHUSDT"] := by
  have hc : List.lookup ("ETHUSDT") [("ETHUSDT", "0.01")] =
      some "0.01" := by with_unfolding_all decide
  have hp : get_open_positions emptyPosOracle "ETHUSDT" = some [] := by
    with_unfolding_all decide
  exact ⟨hc, hp,
    (C6_exit_no_position [("ETHUSDT", "0.01")] emptyPosOracle
      ⟨"ETH", "all", none⟩ "0.01" hc hp).1⟩

/-- C7 (confirmed): a signal whose asset (suffixed with `USDT`) is absent
from the precision cache is dropped before any exchange call, for both
entry and exit processing. -/
theorem C7_unknown_asset_no_calls (cfg : TradeConfig)
    (cache : List (String × String)) (ex : ExchangeOracle)
    (e : EntrySignal) (x : ExitSignal)
    (he : cache.lookup (e.asset ++ "USDT") = none)
    (hx : cache.lookup (x.asset ++ "USDT") = none) :
    process_signal cfg cache ex (some (Signal.entry e)) = [] ∧
    process_signal cfg cache ex (some (Signal.exit x)) = [] := by
  constructor
  · simp only [process_signal, process_entry, he]
  · simp only [process_signal, process_exit, hx]

/-- C7 (witness): an empty cache drops both signal kinds. -/
theorem C7_unknown_asset_no_calls_witness :
    (List.lookup ("BTCUSDT") ([] : List (String × String)) = none) ∧
    (List.lookup ("ETHUSDT") ([] : List (String × String)) = none) ∧
    process_signal ⟨100, 1⟩ [] emptyPosOracle
      (some (Signal.entry ⟨"BTC", "Long", PyFloat.finite 5,
        PyFloat.finite 1, PyFloat.finite 2⟩)) = [] ∧
    process_signal ⟨100, 1⟩ [] emptyPosOracle
      (some (Signal.exit ⟨"ETH", "all", none⟩)) = [] := by
  have he : List.lookup ("BTCUSDT") ([] : List (String × String)) =
      none := rfl
  have hx : List.lookup ("ETHUSDT") ([] : List (String × String)) =
      none := rfl
  obtain ⟨h1, h2⟩ := C7_unknown_asset_no_calls ⟨100, 1⟩ [] emptyPosOracle
    ⟨"BTC", "Long", PyFloat.finite 5, PyFloat.finite 1, PyFloat.finite 2⟩
    ⟨"ETH", "all", none⟩ he hx
  exact ⟨he, hx, h1, h2⟩

/-- Any op sequence preserves `total_processed = successful + failed`. -/
theorem applyOps_total (ops : List StatsOp) :
    ∀ s : HandlerStats, s.total_processed = s.successful + s.failed →
      (applyOps s ops).total_processed =
        (applyOps s ops).successful + (applyOps s ops).failed := by
  induction ops with
  | nil => intro s h; exact h
  | cons op rest ih =>
    intro s h
    cases op with
    | success =>
      exact ih s.record_success
        (by simp only [HandlerStats.record_success]; omega)
    | failure =>
      exact ih s.record_failure
        (by simp only [HandlerStats.record_failure]; omega)

/-- C10 (confirmed): from the initial state, any sequence of
`record_success`/`record_failure` calls keeps
`total_processed = successful + failed`, and the state immediately after a
`record_success` has `consecutive_failures = 0`. -/
theorem C10_stats_invariant (ops : List StatsOp) :
    ((applyOps HandlerStats.init ops).total_processed =
      (applyOps HandlerStats.init ops).successful +
        (applyOps HandlerStats.init ops).failed) ∧
    (applyOps HandlerStats.init
      (ops ++ [StatsOp.success])).consecutive_failures = 0 := by
  constructor
  · exact applyOps_total ops HandlerStats.init rfl
  · have h : applyOps HandlerStats.init (ops ++ [StatsOp.success]) =
        (applyOps HandlerStats.init ops).record_success := by
      simp [applyOps, List.foldl_append]
    rw [h]
    rfl
